import Mathlib

/-!
Verification development for the SPath repository (RFC 9535-style query
language over variant values).  Rust sources are shallowly embedded:
machine integers are modelled as `Int`/`Nat` with explicit range checks
where the source checks them, fallible code returns `Option`/`Except`,
panics (`todo!`, `unwrap`, `expect`) are modelled as a distinguished
`none`/`panic` result, and `f64` payloads are modelled as exact rationals
(finite doubles; NaN/infinity do not arise in the embedded fragments).
-/

namespace SPath

/-! ## RFC 7493 safe integers (src/spec/integer.rs) -/

/-- Maximum allowed value of `spec::integer::Integer`: 2^53 - 1. -/
def integerMax : Int := 9007199254740992 - 1

/-- Minimum allowed value of `spec::integer::Integer`: -(2^53) + 1. -/
def integerMin : Int := -9007199254740992 + 1

/-- `check_i64_is_valid` from src/spec/integer.rs. -/
def check_i64_is_valid (v : Int) : Bool :=
  integerMin ≤ v && v ≤ integerMax

/-- Error type of `spec::integer` (`IntegerError`); the `Parse` payload is
elided since the embedding never constructs it. -/
inductive IntegerError where
  | outOfBounds
  deriving DecidableEq, Repr

/-- `Integer::try_new` from src/spec/integer.rs: bounds-checked construction;
the underlying `i64` payload is modelled as `Int`. -/
def Integer.try_new (value : Int) : Except IntegerError Int :=
  if check_i64_is_valid value then .ok value else .error .outOfBounds

/-! ## The token-integer parser (src/parser/parse.rs, `parse_integer`)

`parse_integer` calls Rust's `str::parse::<i64>` on the token text and
propagates its error; there is no RFC 7493 range check.  `i64::from_str`
accepts an optional sign followed by one or more ASCII decimal digits and
fails on any other character or on overflow of the `i64` range. -/

def i64Min : Int := -9223372036854775808

def i64Max : Int := 9223372036854775807

/-- Digits-to-value helper for the `i64` parse model. -/
def parseDecDigits : List Char → Option Nat
  | [] => none
  | cs =>
    cs.foldlM (fun acc c => if c.isDigit then some (acc * 10 + (c.toNat - 48)) else none) 0

/-- Model of Rust `str::parse::<i64>` as used by `parse_integer`
(src/parser/parse.rs lines 559-563): optional `+`/`-` sign, one or more
decimal digits, result within the `i64` range; anything else is an error. -/
def parse_integer (text : List Char) : Except Unit Int :=
  let (neg, digits) :=
    match text with
    | c :: rest =>
      if c = '-' then (true, rest)
      else if c = '+' then (false, rest)
      else (false, text)
    | [] => (false, text)
  match parseDecDigits digits with
  | none => .error ()
  | some n =>
    let v : Int := if neg then -(n : Int) else (n : Int)
    if i64Min ≤ v ∧ v ≤ i64Max then .ok v else .error ()

/-! ## Built-in function registry (src/spec/function/mod.rs) -/

/-- The built-in functions selectable by `BuiltinFunctionRegistry::get`.
`match`/`search` exist only with the `regex` cargo feature, modelled by the
`regexFeature` flag below. -/
inductive BuiltinFn where
  | count
  | length
  | value
  | matchFn
  | searchFn
  deriving DecidableEq, Repr

/-- ASCII lowercasing of one character (the fragment of Rust
`str::to_lowercase` relevant to the ASCII-only registry keys). -/
def asciiLower (c : Char) : Char :=
  if 65 ≤ c.toNat ∧ c.toNat ≤ 90 then Char.ofNat (c.toNat + 32) else c

/-- Model of `name.to_lowercase()` on the registry lookup key. -/
def toLowercase (name : List Char) : List Char :=
  name.map asciiLower

/-- `BuiltinFunctionRegistry::get` from src/spec/function/mod.rs lines
139-154: lowercase the name, then match it against the built-in names.
`regexFeature` models `#[cfg(feature = "regex")]`. -/
def builtinRegistryGet (regexFeature : Bool) (name : List Char) : Option BuiltinFn :=
  let key := toLowercase name
  if key = "count".data then some .count
  else if key = "length".data then some .length
  else if key = "value".data then some .value
  else if regexFeature && key = "match".data then some .matchFn
  else if regexFeature && key = "search".data then some .searchFn
  else none

/-! ## TOML backend comparison (src/toml.rs) -/

/-- Model of `toml::Value`.  `Float` carries an exact rational (finite
doubles); `Datetime` payloads are irrelevant to comparison and elided. -/
inductive TomlValue where
  | string (s : String)
  | integer (n : Int)
  | float (q : ℚ)
  | boolean (b : Bool)
  | datetime
  | array (xs : List TomlValue)
  | table (xs : List (String × TomlValue))

/-- `VariantValue::is_less_than` for `toml::Value` (src/toml.rs lines
85-92).  `NumCmp::num_lt` between a finite `f64` and an `i64` is exact
numeric comparison, modelled over `ℚ`; string comparison is lexicographic. -/
def tomlIsLessThan : TomlValue → TomlValue → Bool
  | .integer l, .float r => decide ((l : ℚ) < r)
  | .float l, .integer r => decide (l < (r : ℚ))
  | .string l, .string r => decide (l < r)
  | _, _ => false

/-! ## JSON backend comparison (src/json.rs) -/

/-- Model of `serde_json::Number`: an unsigned 64-bit value, a negative
signed 64-bit value, or a finite float (modelled exactly as a rational). -/
inductive JsonNumber where
  | posInt (n : Nat)
  | negInt (n : Int)
  | float (q : ℚ)

/-- `serde_json::Number::as_i128`: succeeds exactly on the integer
variants. -/
def JsonNumber.as_i128 : JsonNumber → Option Int
  | .posInt n => some (n : Int)
  | .negInt n => some n
  | .float _ => none

/-- `serde_json::Number::as_f64`, with the integer-to-double cast modelled
exactly (the claims decided here do not depend on f64 rounding). -/
def JsonNumber.as_f64 : JsonNumber → Option ℚ
  | .posInt n => some (n : ℚ)
  | .negInt n => some (n : ℚ)
  | .float q => some q

/-- `number_less_than` inside the JSON backend's `is_less_than`
(src/json.rs lines 77-93): compare as `i128` when both sides convert,
else fall back to `f64`. -/
def jsonNumberLessThan (left right : JsonNumber) : Bool :=
  match left.as_i128, right.as_i128 with
  | some l, some r => decide (l < r)
  | _, _ =>
    match left.as_f64, right.as_f64 with
    | some l, some r => decide (l < r)
    | _, _ => false

/-! ## The core variant value (src/value.rs)

The evaluation engine is generic over the `VariantValue` behavioural
interface; it is instantiated here at a faithful model of the repository's
own `value::Value`.  `f64` payloads are exact rationals, `Timestamp` and
`Interval` payloads are opaque integers, and the ordered object view
(`BTreeMap` iteration) is a key-value list in iteration order with
first-match key lookup. -/

/-- The repository's `value::Number` (src/value.rs): `I64`, `U64`, `F64`. -/
inductive Number where
  | i64 (n : Int)
  | u64 (n : Nat)
  | f64 (q : ℚ)
  deriving DecidableEq, Repr

/-- The repository's `value::Value` (src/value.rs). -/
inductive Value where
  | null
  | bool (b : Bool)
  | number (n : Number)
  | string (s : String)
  | timestamp (t : Int)
  | interval (t : Int)
  | binary (bs : List Nat)
  | array (xs : List Value)
  | object (xs : List (String × Value))

/-- `VariantValue::as_array`: the elements when the value is an array. -/
def Value.asArray : Value → Option (List Value)
  | .array xs => some xs
  | _ => none

/-- `VariantValue::as_object`: the ordered key-value view when the value is
an object. -/
def Value.asObject : Value → Option (List (String × Value))
  | .object xs => some xs
  | _ => none

/-- `ConcreteVariantObject::get`: keyed lookup (first match). -/
def objectGet (xs : List (String × Value)) (key : String) : Option Value :=
  (xs.find? (fun p => p.1 == key)).map (fun p => p.2)

/-- `ConcreteVariantObject::get_key_value`: keyed lookup returning the
stored key as well. -/
def objectGetKeyValue (xs : List (String × Value)) (key : String) :
    Option (String × Value) :=
  xs.find? (fun p => p.1 == key)

/-! ## Normalized paths (src/path.rs) -/

/-- `PathElement` from src/path.rs: an object key or an array index.  Names
are character lists to mirror the per-character `Display` logic. -/
inductive PathElement where
  | name (s : List Char)
  | index (n : Nat)
  deriving DecidableEq, Repr

/-- Backslash. -/
def bsl : Char := Char.ofNat 92

/-- Apostrophe. -/
def apo : Char := Char.ofNat 39

/-- Lowercase hex digit, as produced by Rust's `{:x}` format. -/
def hexDigitChar (n : Nat) : Char :=
  if n < 10 then Char.ofNat (48 + n) else Char.ofNat (87 + n)

/-- The per-character escaping of `impl fmt::Display for PathElement`
(src/path.rs lines 185-211), arm for arm: `\b \f \n \r \t \'`; a backslash
is written back as a single backslash; U+0000-U+0007, U+000B, U+000E and
U+000F become `\u000X`; every other character (including U+0010-U+001F) is
written unchanged. -/
def escapePathChar (c : Char) : List Char :=
  if c = Char.ofNat 8 then [bsl, 'b']
  else if c = Char.ofNat 12 then [bsl, 'f']
  else if c = Char.ofNat 10 then [bsl, 'n']
  else if c = Char.ofNat 13 then [bsl, 'r']
  else if c = Char.ofNat 9 then [bsl, 't']
  else if c = apo then [bsl, apo]
  else if c = bsl then [bsl]
  else if c.toNat ≤ 7 ∨ c.toNat = 11 ∨ c.toNat = 14 ∨ c.toNat = 15 then
    [bsl, 'u', '0', '0', '0', hexDigitChar c.toNat]
  else [c]

/-- `impl fmt::Display for PathElement` (src/path.rs): names are escaped
character by character, indices print in decimal. -/
def displayPathElement : PathElement → List Char
  | .name s => (s.map escapePathChar).flatten
  | .index n => (Nat.repr n).data

/-- `impl fmt::Display for NormalizedPath` (src/path.rs lines 87-102): `$`,
then per element either `['{name}']` — interpolating the *raw* inner string,
not the element's own escaping `Display` — or `[{index}]`. -/
def displayNormalizedPath (p : List PathElement) : List Char :=
  '$' :: (p.map fun e =>
    match e with
    | .name s => '[' :: apo :: (s ++ [apo, ']'])
    | .index n => '[' :: ((Nat.repr n).data ++ [']'])).flatten

/-- `impl Queryable for Name`, `query_located` (src/spec/selector/name.rs
lines 67-83): on an object, look the name up and return the located node
with the stored key pushed onto the parent path; otherwise nothing. -/
def nameQueryLocated (name : String) (current : Value)
    (parent : List PathElement) : List (List PathElement × Value) :=
  match current.asObject with
  | some fs =>
    match objectGetKeyValue fs name with
    | some (k, v) => [(parent ++ [.name k.data], v)]
    | none => []
  | none => []

/-! ## String literal unescaping (src/parser/parse.rs lines 571-647) -/

/-- Result of `parse_string`: success, a parse error with its message, or a
panic (`expect`/`unwrap` in the source). -/
inductive StrParseResult where
  | ok (s : List Char)
  | err (msg : String)
  | panic
  deriving DecidableEq, Repr

/-- `char::to_digit(16)`. -/
def hexDigitVal (c : Char) : Option Nat :=
  if 48 ≤ c.toNat ∧ c.toNat ≤ 57 then some (c.toNat - 48)
  else if 97 ≤ c.toNat ∧ c.toNat ≤ 102 then some (c.toNat - 87)
  else if 65 ≤ c.toNat ∧ c.toNat ≤ 70 then some (c.toNat - 55)
  else none

/-- `char::to_digit(8)`. -/
def octDigitVal (c : Char) : Option Nat :=
  if 48 ≤ c.toNat ∧ c.toNat ≤ 55 then some (c.toNat - 48) else none

/-- `char::from_u32`: `None` on surrogates and out-of-range values. -/
def charFromU32 (n : Nat) : Option Char :=
  if h : n.isValidChar then some (Char.ofNatAux n h) else none

/-- The hex-accumulation loop shared by `unescape_unicode` and
`unescape_byte` (src/parser/parse.rs lines 614-632): read the given
characters as hex digits and convert the accumulated code with
`char::from_u32`.  The caller passes `cs.take 4` (resp. `cs.take 2`), so
fewer digits are read only when the literal ends early, exactly as the
source's `chars.take(n)`. -/
def unescapeHexVal (taken : List Char) : Option Char :=
  match taken.foldlM (fun acc c => (hexDigitVal c).map (fun d => acc * 16 + d)) 0 with
  | none => none
  | some code => charFromU32 code

/-- The accumulated value of `unescape_octal` (src/parser/parse.rs lines
634-647): the first octal digit, then the maximal run of further octal
digits. -/
def octalVal (c1 : Char) (digits : List Char) : Nat :=
  digits.foldl (fun acc c => acc * 8 + (octDigitVal c).getD 0) ((octDigitVal c1).getD 0)

/-- Prepend a character to a successful parse, propagating errors. -/
def consResult (c : Char) : StrParseResult → StrParseResult
  | .ok s => .ok (c :: s)
  | r => r

/-- The escape-processing loop of `parse_string` (src/parser/parse.rs lines
583-609), over the body of the literal (quotes stripped), parameterized by
the quote character.  The octal arm's greedy digit loop is expressed with
`takeWhile`/`drop`; its `char::from_u32(oct).unwrap()` panic is `.panic`. -/
def parseStringBody (cs : List Char) (quote : Char) : StrParseResult :=
  match cs with
  | [] => .ok []
  | c :: cs' =>
    if c = bsl then
      match cs' with
      | [] => .err "invalid escape sequence"
      | e :: cs'' =>
        if e = 'b' then consResult (Char.ofNat 8) (parseStringBody cs'' quote)
        else if e = 'f' then consResult (Char.ofNat 12) (parseStringBody cs'' quote)
        else if e = 'n' then consResult (Char.ofNat 10) (parseStringBody cs'' quote)
        else if e = 'r' then consResult (Char.ofNat 13) (parseStringBody cs'' quote)
        else if e = 't' then consResult (Char.ofNat 9) (parseStringBody cs'' quote)
        else if e = bsl then consResult bsl (parseStringBody cs'' quote)
        else if e = 'u' then
          match unescapeHexVal (cs''.take 4) with
          | some ch => consResult ch (parseStringBody (cs''.drop 4) quote)
          | none => .err "invalid escape sequence"
        else if e = 'x' then
          match unescapeHexVal (cs''.take 2) with
          | some ch => consResult ch (parseStringBody (cs''.drop 2) quote)
          | none => .err "invalid escape sequence"
        else if (octDigitVal e).isSome then
          let digits := cs''.takeWhile (fun c => (octDigitVal c).isSome)
          match charFromU32 (octalVal e digits) with
          | some ch => consResult ch (parseStringBody (cs''.drop digits.length) quote)
          | none => .panic
        else if e = quote then consResult quote (parseStringBody cs'' quote)
        else .err "invalid escape sequence"
    else if c = quote then .err "intermediately close quote"
    else consResult c (parseStringBody cs' quote)
  termination_by cs.length
  decreasing_by
  all_goals simp [List.length_drop]
  all_goals omega

/-- `parse_string` (src/parser/parse.rs lines 571-612): the token text must
be nonempty (the source `expect`s its first character, the quote), the last
character must equal the quote, and the body in between is unescaped. -/
def parse_string (text : List Char) : StrParseResult :=
  match text with
  | [] => .panic
  | quote :: rest =>
    match rest.getLast? with
    | none => .err "mismatched quote"
    | some c =>
      if c = quote then parseStringBody rest.dropLast quote
      else .err "mismatched quote"

/-! ## Slice selectors (src/spec/selector/slice.rs)

`Integer`'s checked arithmetic (src/spec/integer.rs lines 74-91) first
performs the `i64` checked operation and then re-checks the RFC 7493 range;
both checks are flattened into a single condition on the exact result. -/

def checkedAddOk (a b : Int) : Prop :=
  i64Min ≤ a + b ∧ a + b ≤ i64Max ∧ integerMin ≤ a + b ∧ a + b ≤ integerMax

instance (a b : Int) : Decidable (checkedAddOk a b) := by
  unfold checkedAddOk
  infer_instance

/-- `Integer::checked_add`. -/
def Integer.checkedAdd (a b : Int) : Option Int :=
  if checkedAddOk a b then some (a + b) else none

def checkedSubOk (a b : Int) : Prop :=
  i64Min ≤ a - b ∧ a - b ≤ i64Max ∧ integerMin ≤ a - b ∧ a - b ≤ integerMax

instance (a b : Int) : Decidable (checkedSubOk a b) := by
  unfold checkedSubOk
  infer_instance

/-- `Integer::checked_sub`. -/
def Integer.checkedSub (a b : Int) : Option Int :=
  if checkedSubOk a b then some (a - b) else none

def checkedMulOk (a b : Int) : Prop :=
  i64Min ≤ a * b ∧ a * b ≤ i64Max ∧ integerMin ≤ a * b ∧ a * b ≤ integerMax

instance (a b : Int) : Decidable (checkedMulOk a b) := by
  unfold checkedMulOk
  infer_instance

/-- `Integer::checked_mul`. -/
def Integer.checkedMul (a b : Int) : Option Int :=
  if checkedMulOk a b then some (a * b) else none

/-- `Integer::try_from(usize)` (src/spec/integer.rs `impl_try_from!`):
`i64::try_from` followed by the range check, flattened (a nonnegative value
only ever fails the upper bound, and `integerMax < i64Max`). -/
def integerTryFromNat (n : Nat) : Option Int :=
  if (n : Int) ≤ integerMax then some (n : Int) else none

/-- `normalize_slice_index` (src/spec/selector/slice.rs lines 252-258). -/
def normalize_slice_index (index len : Int) : Option Int :=
  if 0 ≤ index then some index else Integer.checkedSub len (index.natAbs : Int)

/-- The `Slice` selector (src/spec/selector/slice.rs); the `Integer` fields
are `Int`s whose RFC 7493 range is an invariant of parsing, carried as a
hypothesis by the theorems below.  `end_` is the source's `end` field. -/
structure Slice where
  start : Option Int
  end_ : Option Int
  step : Option Int

/-- `Slice::bounds_on_forward_slice` (src/spec/selector/slice.rs lines
107-120). -/
def bounds_on_forward_slice (s : Slice) (len : Int) : Int × Int :=
  let start_default := s.start.getD 0
  let end_default := s.end_.getD len
  let start := max ((normalize_slice_index start_default len).getD 0) 0
  let endv := max ((normalize_slice_index end_default len).getD 0) 0
  let lower := min start len
  let upper := min endv len
  (lower, upper)

/-- `Slice::bounds_on_reverse_slice` (src/spec/selector/slice.rs lines
122-146); the `?`-propagated defaults make the whole computation optional. -/
def bounds_on_reverse_slice (s : Slice) (len : Int) : Option (Int × Int) := do
  let start_default ←
    match s.start with
    | some v => some v
    | none => Integer.checkedSub len 1
  let end_default ←
    match s.end_ with
    | some v => some v
    | none => (Integer.checkedMul len (-1)).bind (fun l => Integer.checkedSub l 1)
  let start := max ((normalize_slice_index start_default len).getD 0) (-1)
  let endv := max ((normalize_slice_index end_default len).getD 0) (-1)
  let lower := min endv ((Integer.checkedSub len 1).getD len)
  let upper := min start ((Integer.checkedSub len 1).getD len)
  some (lower, upper)

/-- The `step > 0` loop of `Slice::query` (src/spec/selector/slice.rs lines
160-172): push `list[i]` when the index converts and is in range, then
`i = i.checked_add(step)` or break.  The source's `checked_add` match is
written as an `if` on the same condition; the `0 < step` conjunct in the
guard records the caller's invariant (the loop is only entered with a
positive step) and makes the recursion well-founded. -/
def sliceForwardLoop (xs : List Value) (upper step i : Int) : List Value :=
  if h : 0 < step ∧ i < upper then
    let cont := if checkedAddOk i step then sliceForwardLoop xs upper step (i + step) else []
    match (if 0 ≤ i then xs.get? i.toNat else none) with
    | some v => v :: cont
    | none => cont
  else []
  termination_by (upper - i).toNat
  decreasing_by
  omega

/-- The `step < 0` loop of `Slice::query` (src/spec/selector/slice.rs lines
173-187), analogously. -/
def sliceReverseLoop (xs : List Value) (lower step i : Int) : List Value :=
  if h : step < 0 ∧ lower < i then
    let cont := if checkedAddOk i step then sliceReverseLoop xs lower step (i + step) else []
    match (if 0 ≤ i then xs.get? i.toNat else none) with
    | some v => v :: cont
    | none => cont
  else []
  termination_by (i - lower).toNat
  decreasing_by
  omega

/-- `impl Queryable for Slice`, `query` (src/spec/selector/slice.rs lines
149-193). -/
def sliceQuery (s : Slice) (current : Value) : List Value :=
  match current.asArray with
  | none => []
  | some xs =>
    let step := s.step.getD 1
    if step = 0 then []
    else
      match integerTryFromNat xs.length with
      | none => []
      | some len =>
        if 0 < step then
          let (lower, upper) := bounds_on_forward_slice s len
          sliceForwardLoop xs upper step lower
        else
          match bounds_on_reverse_slice s len with
          | none => []
          | some (lower, upper) => sliceReverseLoop xs lower step upper

/-! Claim-side slice semantics (RFC 9535 §2.3.4.2.2 as phrased by the
claim): normalize negative start/end against the length, clamp to the
valid range, then walk `i = lower; i < upper; i += step` (forward) or
`i = upper; i > lower; i += step` (reverse). -/

/-- Claim-side index normalization: negative indices count from the end. -/
def normalizeIdx (i len : Int) : Int :=
  if 0 ≤ i then i else len + i

/-- Claim-side forward bounds: defaults 0 and `len`, normalized and clamped
to `[0, len]`. -/
def claimForwardBounds (start end_ : Option Int) (len : Int) : Int × Int :=
  (min (max (normalizeIdx (start.getD 0) len) 0) len,
   min (max (normalizeIdx (end_.getD len) len) 0) len)

/-- Claim-side reverse bounds: defaults `len - 1` and `-len - 1`,
normalized and clamped to `[-1, len - 1]`; `(lower, upper)`. -/
def claimReverseBounds (start end_ : Option Int) (len : Int) : Int × Int :=
  (min (max (normalizeIdx (end_.getD (-len - 1)) len) (-1)) (len - 1),
   min (max (normalizeIdx (start.getD (len - 1)) len) (-1)) (len - 1))

/-- Claim-side forward index sequence: `i = start; while i < upper; i += step`
(the `0 < step` guard is the caller's invariant). -/
def forwardIndices (i upper step : Int) : List Int :=
  if h : 0 < step ∧ i < upper then i :: forwardIndices (i + step) upper step else []
  termination_by (upper - i).toNat
  decreasing_by
  omega

/-- Claim-side reverse index sequence: `i = start; while i > lower; i += step`. -/
def reverseIndices (i lower step : Int) : List Int :=
  if h : step < 0 ∧ lower < i then i :: reverseIndices (i + step) lower step else []
  termination_by (i - lower).toNat
  decreasing_by
  omega

/-- Element extraction at one index, as the slice loops perform it:
`usize::try_from(i).ok().and_then(|i| list.get(i))`. -/
def elemAt (xs : List Value) (i : Int) : Option Value :=
  if 0 ≤ i then xs.get? i.toNat else none

/-! ## The query AST (src/spec/query.rs, segment.rs, selector/, filter.rs) -/

/-- `QueryKind` (src/spec/query.rs): `$` or `@`. -/
inductive QueryKind where
  | root
  | current
  deriving DecidableEq, Repr

/-- `QuerySegmentKind` (src/spec/segment.rs). -/
inductive QuerySegmentKind where
  | child
  | descendant
  deriving DecidableEq, Repr

/-- `SingularQuerySegment` (src/spec/selector/filter.rs lines 452-458). -/
inductive SingularQuerySegment where
  | name (n : String)
  | index (i : Int)
  deriving DecidableEq, Repr

/-- `SingularQueryKind` (src/spec/selector/filter.rs lines 575-581). -/
inductive SingularQueryKind where
  | absolute
  | relative
  deriving DecidableEq, Repr

/-- `SingularQuery` (src/spec/selector/filter.rs lines 507-513). -/
structure SingularQuery where
  kind : SingularQueryKind
  segments : List SingularQuerySegment
  deriving DecidableEq, Repr

/-- `ComparisonOperator` (src/spec/selector/filter.rs lines 340-354). -/
inductive ComparisonOperator where
  | equalTo
  | notEqualTo
  | lessThan
  | greaterThan
  | lessThanEqualTo
  | greaterThanEqualTo
  deriving DecidableEq, Repr

/-- `Literal` (src/spec/selector/filter.rs lines 415-425). -/
inductive Literal where
  | number (n : Number)
  | string (s : String)
  | bool (b : Bool)
  | null
  deriving DecidableEq, Repr

/-- `Comparable` (src/spec/selector/filter.rs lines 370-378). -/
inductive Comparable where
  | literal (lit : Literal)
  | singularQuery (sq : SingularQuery)
  deriving DecidableEq, Repr

/-- `ComparisonExpr` (src/spec/selector/filter.rs lines 209-218). -/
structure ComparisonExpr where
  left : Comparable
  op : ComparisonOperator
  right : Comparable
  deriving DecidableEq, Repr

mutual

/-- `Query` (src/spec/query.rs lines 60-66). -/
inductive Query where
  | mk (kind : QueryKind) (segments : List QuerySegment)

/-- `QuerySegment` (src/spec/segment.rs lines 28-34). -/
inductive QuerySegment where
  | mk (kind : QuerySegmentKind) (segment : Segment)

/-- `Segment` (src/spec/segment.rs lines 142-151). -/
inductive Segment where
  | longHand (selectors : List Selector)
  | dotName (name : String)
  | wildcard

/-- `Selector` (src/spec/selector/mod.rs lines 37-52). -/
inductive Selector where
  | name (n : String)
  | wildcard
  | index (i : Int)
  | arraySlice (s : Slice)
  | filter (f : Filter)

/-- `Filter` (src/spec/selector/filter.rs line 48). -/
inductive Filter where
  | mk (expr : LogicalOrExpr)

/-- `LogicalOrExpr` (src/spec/selector/filter.rs line 100). -/
inductive LogicalOrExpr where
  | mk (exprs : List LogicalAndExpr)

/-- `LogicalAndExpr` (src/spec/selector/filter.rs line 123). -/
inductive LogicalAndExpr where
  | mk (exprs : List BasicExpr)

/-- `BasicExpr` (src/spec/selector/filter.rs lines 146-157); `ExistExpr`
is a plain wrapper around `Query` and is inlined. -/
inductive BasicExpr where
  | paren (e : LogicalOrExpr)
  | parenNot (e : LogicalOrExpr)
  | relation (e : ComparisonExpr)
  | exist (q : Query)
  | notExist (q : Query)

end

/-- `SPathValue` (src/spec/function/value.rs lines 22-29); node references
and owned values both carry a `Value`. -/
inductive SPathValue where
  | nodes (xs : List Value)
  | logical (b : Bool)
  | node (v : Value)
  | value (v : Value)
  | nothing

/-! ## Flat evaluation pieces -/

/-- `SingularQuery::eval_query` (src/spec/selector/filter.rs lines 515-545):
start from the root (absolute) or current (relative) node and follow name
and index segments; any miss yields `None`. -/
def evalSingularQuery (sq : SingularQuery) (current root : Value) : Option Value :=
  sq.segments.foldlM
    (fun target seg =>
      match seg with
      | .name n => target.asObject.bind (fun o => objectGet o n)
      | .index i => target.asArray.bind (fun l => if 0 ≤ i then l.get? i.toNat else none))
    (match sq.kind with
     | .absolute => root
     | .relative => current)

/-- `From<&Literal> for SPathValue` (src/spec/selector/filter.rs lines
427-438). -/
def literalToSPathValue : Literal → SPathValue
  | .number n => .value (Value.number n)
  | .string s => .value (Value.string s)
  | .bool b => .value (Value.bool b)
  | .null => .value Value.null

/-- `Comparable::as_value` (src/spec/selector/filter.rs lines 389-403). -/
def comparableAsValue (c : Comparable) (current root : Value) : SPathValue :=
  match c with
  | .literal lit => literalToSPathValue lit
  | .singularQuery sq =>
    match evalSingularQuery sq current root with
    | some v => .node v
    | none => .nothing

/-- `serde_json`-style `Number::as_f64` used by the comparison helpers in
filter.rs; total in the rational model. -/
def Number.as_f64 : Number → Option ℚ
  | .i64 n => some (n : ℚ)
  | .u64 n => some (n : ℚ)
  | .f64 q => some q

/-- `Number::as_i64`. -/
def Number.as_i64 : Number → Option Int
  | .i64 n => some n
  | .u64 n => if (n : Int) ≤ i64Max then some (n : Int) else none
  | .f64 _ => none

/-- `Number::as_u64`. -/
def Number.as_u64 : Number → Option Nat
  | .i64 n => if 0 ≤ n then some n.toNat else none
  | .u64 n => some n
  | .f64 _ => none

/-- `number_less_than` (src/spec/selector/filter.rs lines 327-337). -/
def number_less_than (n1 n2 : Number) : Bool :=
  match n1.as_f64, n2.as_f64 with
  | some a, some b => decide (a < b)
  | _, _ =>
    match n1.as_i64, n2.as_i64 with
    | some a, some b => decide (a < b)
    | _, _ =>
      match n1.as_u64, n2.as_u64 with
      | some a, some b => decide (a < b)
      | _, _ => false

/-- `value_equal_to` (src/spec/selector/filter.rs lines 231-238): the body
is `todo!("implement value_equal_to")` — every call panics, modelled as
`none`. -/
def value_equal_to (left right : Value) : Option Bool :=
  none

/-- `value_less_than` (src/spec/selector/filter.rs lines 252-258). -/
def value_less_than : Value → Value → Bool
  | .number n1, .number n2 => number_less_than n1 n2
  | .string s1, .string s2 => decide (s1 < s2)
  | _, _ => false

/-- `value_same_type` (src/spec/selector/filter.rs lines 270-277); note
that `Timestamp`, `Interval` and `Binary` values match no arm. -/
def value_same_type : Value → Value → Bool
  | .null, .null => true
  | .bool _, .bool _ => true
  | .number _, .number _ => true
  | .string _, .string _ => true
  | .array _, .array _ => true
  | .object _, .object _ => true
  | _, _ => false

/-- `check_equal_to` (src/spec/selector/filter.rs lines 220-229);
combinations reaching `value_equal_to` propagate its panic. -/
def check_equal_to : SPathValue → SPathValue → Option Bool
  | .node v1, .node v2 => value_equal_to v1 v2
  | .node v1, .value v2 => value_equal_to v1 v2
  | .value v1, .node v2 => value_equal_to v1 v2
  | .value v1, .value v2 => value_equal_to v1 v2
  | .nothing, .nothing => some true
  | _, _ => some false

/-- `check_less_than` (src/spec/selector/filter.rs lines 260-268). -/
def check_less_than : SPathValue → SPathValue → Bool
  | .node v1, .node v2 => value_less_than v1 v2
  | .node v1, .value v2 => value_less_than v1 v2
  | .value v1, .node v2 => value_less_than v1 v2
  | .value v1, .value v2 => value_less_than v1 v2
  | _, _ => false

/-- `check_same_type` (src/spec/selector/filter.rs lines 279-287). -/
def check_same_type : SPathValue → SPathValue → Bool
  | .node v1, .node v2 => value_same_type v1 v2
  | .node v1, .value v2 => value_same_type v1 v2
  | .value v1, .node v2 => value_same_type v1 v2
  | .value v1, .value v2 => value_same_type v1 v2
  | _, _ => false

/-- `impl TestFilter for ComparisonExpr` (src/spec/selector/filter.rs
lines 301-325), with Rust's `&&`/`||` short-circuiting made explicit so
that `check_equal_to`'s panic is reached exactly when the source reaches
it. -/
def comparisonTestFilter (c : ComparisonExpr) (current root : Value) : Option Bool :=
  let left := comparableAsValue c.left current root
  let right := comparableAsValue c.right current root
  match c.op with
  | .equalTo => check_equal_to left right
  | .notEqualTo => (check_equal_to left right).map (fun b => !b)
  | .lessThan => some (check_same_type left right && check_less_than left right)
  | .greaterThan =>
    if check_same_type left right then
      if check_less_than left right then some false
      else (check_equal_to left right).map (fun b => !b)
    else some false
  | .lessThanEqualTo =>
    if check_same_type left right then
      if check_less_than left right then some true
      else check_equal_to left right
    else some false
  | .greaterThanEqualTo => some (check_same_type left right && !check_less_than left right)

/-- `resolve_index` (src/spec/selector/index.rs lines 58-71). -/
def resolve_index (index : Int) (len : Nat) : Option Nat :=
  match (if 0 ≤ index then some index.toNat
         else
           let l64 := if (len : Int) ≤ i64Max then (len : Int) else i64Max
           let j := l64 + index
           if 0 ≤ j then some j.toNat else none) with
  | some i => if i < len then some i else none
  | none => none

/-- `impl Queryable for Index`, `query` (src/spec/selector/index.rs lines
73-88). -/
def indexQuery (i : Int) (current : Value) : List Value :=
  match current.asArray with
  | some xs =>
    match (resolve_index i xs.length).bind xs.get? with
    | some v => [v]
    | none => []
  | none => []

/-- `impl Queryable for Name`, `query` (src/spec/selector/name.rs lines
52-65). -/
def nameQuery (n : String) (current : Value) : List Value :=
  match current.asObject.bind (fun o => objectGet o n) with
  | some v => [v]
  | none => []

/-- `select_wildcard` (src/spec/mod.rs lines 33-43): array elements, or
object values, or nothing. -/
def selectWildcard : Value → List Value
  | .array xs => xs
  | .object fs => fs.map (fun p => p.2)
  | _ => []

/-- The `kind` field of `QuerySegment`. -/
def QuerySegment.kind : QuerySegment → QuerySegmentKind
  | .mk k _ => k

/-- The `segment` field of `QuerySegment`. -/
def QuerySegment.segment : QuerySegment → Segment
  | .mk _ seg => seg

/-! ## The recursive evaluator (src/spec/query.rs `Queryable`)

All functions return `Option` results: `none` propagates the
`value_equal_to` panic; every other path is total.  Loops over node lists,
selector lists and children are explicit list recursions; termination is
by the lexicographic measure (AST size, value size). -/

mutual

/-- `impl Queryable for Query`, `query` (src/spec/query.rs lines 106-119):
seed the node list with the root or current node, then fold the segments. -/
def queryEval : Query → Value → Value → Option (List Value)
  | .mk kind segments, current, root =>
    segListEval segments
      (match kind with
       | .root => [root]
       | .current => [current]) root
  termination_by q current root => (sizeOf q, 0)

/-- The segment fold of `Query::query`. -/
def segListEval : List QuerySegment → List Value → Value → Option (List Value)
  | [], nodes, _ => some nodes
  | s :: rest, nodes, root =>
    (segNodesEval s nodes root).bind (fun nodes' => segListEval rest nodes' root)
  termination_by segs nodes root => (sizeOf segs, sizeOf nodes)

/-- The inner node loop of `Query::query`: apply one segment to each node,
appending the results. -/
def segNodesEval : QuerySegment → List Value → Value → Option (List Value)
  | _, [], _ => some []
  | s, v :: vs, root =>
    (querySegmentEval s v root).bind
      (fun r1 => (segNodesEval s vs root).map (fun r2 => r1 ++ r2))
  termination_by s nodes root => (sizeOf s, sizeOf nodes)

/-- `impl Queryable for QuerySegment`, `query` (src/spec/segment.rs lines
57-69): the segment's own results, then — for descendant segments — the
recursive `descend` over array elements or object values. -/
def querySegmentEval (s : QuerySegment) (current root : Value) : Option (List Value) :=
  (segmentEval s.segment current root).bind (fun r =>
    match s.kind with
    | .child => some r
    | .descendant =>
      match current with
      | .array xs => (descendList s xs root).map (fun d => r ++ d)
      | .object fs => (descendObj s fs root).map (fun d => r ++ d)
      | _ => some r)
  termination_by (sizeOf s, sizeOf current)
  decreasing_by
  all_goals first
    | (apply Prod.Lex.right
       simp
       try omega)
    | (apply Prod.Lex.left
       cases s with
       | mk k seg =>
         simp [QuerySegment.segment]
         try omega)

/-- `descend` (src/spec/segment.rs lines 90-107), array branch: apply the
whole query segment to each element in order. -/
def descendList : QuerySegment → List Value → Value → Option (List Value)
  | _, [], _ => some []
  | s, v :: vs, root =>
    (querySegmentEval s v root).bind
      (fun r1 => (descendList s vs root).map (fun r2 => r1 ++ r2))
  termination_by s children root => (sizeOf s, sizeOf children)

/-- `descend` (src/spec/segment.rs lines 90-107), object branch: apply the
whole query segment to each member value in order. -/
def descendObj : QuerySegment → List (String × Value) → Value → Option (List Value)
  | _, [], _ => some []
  | s, (_, v) :: fs, root =>
    (querySegmentEval s v root).bind
      (fun r1 => (descendObj s fs root).map (fun r2 => r1 ++ r2))
  termination_by s fields root => (sizeOf s, sizeOf fields)

/-- `impl Queryable for Segment`, `query` (src/spec/segment.rs lines
213-237). -/
def segmentEval : Segment → Value → Value → Option (List Value)
  | .longHand selectors, current, root => selListEval selectors current root
  | .dotName key, current, _ =>
    some
      (match current.asObject with
       | some o =>
         match objectGet o key with
         | some v => [v]
         | none => []
       | none => [])
  | .wildcard, current, _ => some (selectWildcard current)
  termination_by s current root => (sizeOf s, sizeOf current)

/-- The selector loop of `Segment::query` for long-hand segments
(src/spec/segment.rs lines 222-226). -/
def selListEval : List Selector → Value → Value → Option (List Value)
  | [], _, _ => some []
  | s :: rest, current, root =>
    (selectorEval s current root).bind
      (fun r1 => (selListEval rest current root).map (fun r2 => r1 ++ r2))
  termination_by sels current root => (sizeOf sels, sizeOf current)

/-- `impl Queryable for Selector`, `query` (src/spec/selector/mod.rs lines
73-84), dispatching to the per-selector semantics; the filter arm is
`impl Queryable for Filter` (src/spec/selector/filter.rs lines 56-70). -/
def selectorEval : Selector → Value → Value → Option (List Value)
  | .name n, current, _ => some (nameQuery n current)
  | .wildcard, current, _ => some (selectWildcard current)
  | .index i, current, _ => some (indexQuery i current)
  | .arraySlice sl, current, _ => some (sliceQuery sl current)
  | .filter (.mk expr), current, root =>
    match current with
    | .array xs => filterChildren expr xs root
    | .object fs => filterFields expr fs root
    | _ => some []
  termination_by s current root => (sizeOf s, sizeOf current)

/-- The array branch of `Filter::query`: keep the elements whose filter
test is true. -/
def filterChildren : LogicalOrExpr → List Value → Value → Option (List Value)
  | _, [], _ => some []
  | expr, v :: vs, root =>
    (logicalOrTest expr v root).bind
      (fun b => (filterChildren expr vs root).map (fun rest => if b then v :: rest else rest))
  termination_by expr children root => (sizeOf expr, sizeOf children)

/-- The object branch of `Filter::query`: keep the member values whose
filter test is true. -/
def filterFields : LogicalOrExpr → List (String × Value) → Value → Option (List Value)
  | _, [], _ => some []
  | expr, (_, v) :: fs, root =>
    (logicalOrTest expr v root).bind
      (fun b => (filterFields expr fs root).map (fun rest => if b then v :: rest else rest))
  termination_by expr fields root => (sizeOf expr, sizeOf fields)

/-- `impl TestFilter for LogicalOrExpr` (src/spec/selector/filter.rs lines
115-119): short-circuiting `any`. -/
def logicalOrTest : LogicalOrExpr → Value → Value → Option Bool
  | .mk exprs, current, root => orListTest exprs current root
  termination_by e current root => (sizeOf e, sizeOf current)

/-- The short-circuiting disjunction loop. -/
def orListTest : List LogicalAndExpr → Value → Value → Option Bool
  | [], _, _ => some false
  | e :: rest, current, root =>
    (andTest e current root).bind
      (fun b => if b then some true else orListTest rest current root)
  termination_by es current root => (sizeOf es, sizeOf current)

/-- `impl TestFilter for LogicalAndExpr` (src/spec/selector/filter.rs lines
138-142): short-circuiting `all`. -/
def andTest : LogicalAndExpr → Value → Value → Option Bool
  | .mk exprs, current, root => andListTest exprs current root
  termination_by e current root => (sizeOf e, sizeOf current)

/-- The short-circuiting conjunction loop. -/
def andListTest : List BasicExpr → Value → Value → Option Bool
  | [], _, _ => some true
  | e :: rest, current, root =>
    (basicTest e current root).bind
      (fun b => if b then andListTest rest current root else some false)
  termination_by es current root => (sizeOf es, sizeOf current)

/-- `impl TestFilter for BasicExpr` (src/spec/selector/filter.rs lines
181-191), with `impl TestFilter for ExistExpr` (lines 203-207) inlined in
the `exist`/`notExist` arms. -/
def basicTest : BasicExpr → Value → Value → Option Bool
  | .paren e, current, root => logicalOrTest e current root
  | .parenNot e, current, root => (logicalOrTest e current root).map (fun x => !x)
  | .relation c, current, root => comparisonTestFilter c current root
  | .exist q, current, root => (queryEval q current root).map (fun r => !r.isEmpty)
  | .notExist q, current, root => (queryEval q current root).map (fun r => r.isEmpty)
  termination_by b current root => (sizeOf b, sizeOf current)

end

/-! ## Singular-query syntax (src/spec/query.rs, segment.rs, selector/mod.rs) -/

/-- `QuerySegment::is_child` (src/spec/segment.rs lines 37-40). -/
def QuerySegment.is_child (s : QuerySegment) : Bool :=
  match s.kind with
  | .child => true
  | .descendant => false

/-- `QuerySegment::is_descendent` (src/spec/segment.rs lines 42-46). -/
def QuerySegment.is_descendent (s : QuerySegment) : Bool :=
  !s.is_child

/-- `Selector::is_singular` (src/spec/selector/mod.rs lines 54-59): only
name and index selectors are singular. -/
def Selector.is_singular : Selector → Bool
  | .name _ => true
  | .index _ => true
  | _ => false

/-- `Segment::is_singular` (src/spec/segment.rs lines 153-173). -/
def Segment.is_singular : Segment → Bool
  | .longHand selectors =>
    if selectors.length > 1 then false
    else
      match selectors.head? with
      | some s => s.is_singular
      | none => true
  | .dotName _ => true
  | .wildcard => false

/-- `Query::is_singular` (src/spec/query.rs lines 68-80): no descendant
segment, every segment singular. -/
def Query.is_singular : Query → Bool
  | .mk _ segments => segments.all (fun s => !s.is_descendent && s.segment.is_singular)

/-! ## The alternative compiled engine (src/spath.rs)

`SPath::eval` runs over `EvalSegment`s; its descendant segment walks the
value with an explicit `Vec` used as a LIFO stack (`queue.pop()` takes the
*last* element).  The stack is modelled with its top at the list head, so
`Vec::extend(children)` becomes `children.reverse ++ stack`. -/

/-- `EvalSelector` (src/spath.rs lines 132-162). -/
inductive EvalSelector where
  | wildcard
  | identifier (name : String)
  | index (i : Int)
  | slice (start : Option Int) (end_ : Option Int) (step : Int)

/-- `EvalSegment` (src/spath.rs lines 60-72). -/
inductive EvalSegment where
  | child (selectors : List EvalSelector)
  | descendant (selectors : List EvalSelector)

/-- `VariantValue::make_array` — Modelled from the spec: the `VariantValue`
trait definition itself is not under src/ (§4.1 requires "the ability to
materialize a list of values as an array value"); for the core variant
value it wraps the list in `Value::Array`. -/
def make_array (xs : List Value) : Value :=
  Value.array xs

/-- The `bounds` function of src/spath.rs lines 270-292 (plain `i64`
arithmetic, no checked operations). -/
def spathBounds (start end_ step len : Int) : Int × Int :=
  let start := if start < 0 then len + start else start
  let endv := if end_ < 0 then len + end_ else end_
  if 0 ≤ step then (min (max start 0) len, min (max endv 0) len)
  else (min (max endv (-1)) (len - 1), min (max start (-1)) (len - 1))

/-- The `step > 0` slice loop of src/spath.rs lines 227-234; the source's
`vec.get(i as usize).unwrap()` never fails for in-bounds `i` and is
modelled with a default.  The `0 < step` guard conjunct is the branch
invariant. -/
def spathForwardLoop (xs : List Value) (upper step i : Int) : List Value :=
  if h : 0 < step ∧ i < upper then
    (xs.get? i.toNat).getD Value.null :: spathForwardLoop xs upper step (i + step)
  else []
  termination_by (upper - i).toNat
  decreasing_by
  omega

/-- The `step < 0` slice loop of src/spath.rs lines 235-243. -/
def spathReverseLoop (xs : List Value) (lower step i : Int) : List Value :=
  if h : step < 0 ∧ lower < i then
    (xs.get? i.toNat).getD Value.null :: spathReverseLoop xs lower step (i + step)
  else []
  termination_by (i - lower).toNat
  decreasing_by
  omega

/-- `EvalSelector::eval` (src/spath.rs lines 164-252); `resolve_index` of
src/spath.rs lines 254-268 is identical to the one in index.rs and shared. -/
def evalSelectorEval (sel : EvalSelector) (root value : Value) : Option Value :=
  match sel with
  | .wildcard =>
    match value with
    | .array xs => some (make_array xs)
    | .object fs => some (make_array (fs.map (fun p => p.2)))
    | _ => none
  | .identifier name => value.asObject.bind (fun m => objectGet m name)
  | .index i => value.asArray.bind (fun xs => (resolve_index i xs.length).bind xs.get?)
  | .slice start end_ step =>
    match value.asArray with
    | none => none
    | some xs =>
      if step = 0 then some (make_array [])
      else
        let len := if (xs.length : Int) ≤ i64Max then (xs.length : Int) else i64Max
        let se :=
          if 0 ≤ step then (start.getD 0, end_.getD len)
          else (start.getD (len - 1), end_.getD (-len - 1))
        let lu := spathBounds se.1 se.2 step len
        if 0 < step then some (make_array (spathForwardLoop xs lu.2 step lu.1))
        else some (make_array (spathReverseLoop xs lu.1 step lu.2))

/-- The children pushed onto the descent queue (src/spath.rs lines
119-124): object values first, else array elements. -/
def stackChildren : Value → List Value
  | .object fs => fs.map (fun p => p.2)
  | .array xs => xs
  | _ => []

/-- The `while let Some(value) = queue.pop()` loop of
`EvalSegment::Descendant` eval (src/spath.rs lines 110-125): pop the top,
collect each selector's result, push the popped value's children. -/
def descendantStackLoop (selectors : List EvalSelector) (root : Value)
    (stack : List Value) : List Value :=
  match stack with
  | [] => []
  | v :: rest =>
    selectors.filterMap (fun sel => evalSelectorEval sel root v)
      ++ descendantStackLoop selectors root ((stackChildren v).reverse ++ rest)
  termination_by (stack.map sizeOf).sum
  decreasing_by
  have hxs : ∀ ys : List Value, (ys.map sizeOf).sum < sizeOf ys := by
    intro ys
    induction ys with
    | nil => simp
    | cons y ys ih =>
      simp only [List.map_cons, List.sum_cons, List.cons.sizeOf_spec]
      omega
  have hfs : ∀ fs : List (String × Value), ((fs.map (fun p => p.2)).map sizeOf).sum < sizeOf fs := by
    intro fs
    induction fs with
    | nil => simp
    | cons f fs ih =>
      cases f with
      | mk a b =>
        simp only [List.map_cons, List.sum_cons, List.cons.sizeOf_spec, Prod.mk.sizeOf_spec]
        omega
  have hch : ((stackChildren v).map sizeOf).sum < sizeOf v := by
    cases v with
    | array xs =>
      have := hxs xs
      simp only [stackChildren, Value.array.sizeOf_spec]
      omega
    | object fs =>
      have := hfs fs
      simp only [stackChildren, Value.object.sizeOf_spec]
      omega
    | null => simp [stackChildren]
    | bool b => simp [stackChildren]
    | number n => simp [stackChildren]
    | string s => simp [stackChildren]
    | timestamp t => simp [stackChildren]
    | interval t => simp [stackChildren]
    | binary bs => simp [stackChildren]
  simp only [List.map_append, List.sum_append, List.map_reverse, List.sum_reverse,
    List.map_cons, List.sum_cons]
  omega

/-- `EvalSegment::eval` (src/spath.rs lines 74-129): a child segment pops
the (at most one) result for short selector lists or materializes an
array; a descendant segment runs the stack walk seeded with the input
value and materializes the collected results. -/
def evalSegmentEval (s : EvalSegment) (root value : Value) : Option Value :=
  match s with
  | .child selectors =>
    let result := selectors.filterMap (fun sel => evalSelectorEval sel root value)
    if selectors.length ≤ 1 then result.getLast? else some (make_array result)
  | .descendant selectors =>
    some (make_array (descendantStackLoop selectors root [value]))

/-! ## Helper lemmas -/

theorem charToNat_ofNat (n : Nat) (h : n.isValidChar) : (Char.ofNat n).toNat = n := by
  simp [Char.ofNat, h, Char.ofNatAux, Char.toNat, UInt32.toNat]

theorem asciiLower_idem (c : Char) : asciiLower (asciiLower c) = asciiLower c := by
  unfold asciiLower
  by_cases h : 65 ≤ c.toNat ∧ c.toNat ≤ 90
  · have hv : (c.toNat + 32).isValidChar := Or.inl (by omega)
    have htn := charToNat_ofNat (c.toNat + 32) hv
    rw [if_pos h, if_neg]
    rw [htn]
    omega
  · rw [if_neg h, if_neg h]

theorem toLowercase_idem (name : List Char) :
    toLowercase (toLowercase name) = toLowercase name := by
  unfold toLowercase
  rw [List.map_map]
  exact List.map_congr_left (fun c _ => asciiLower_idem c)

theorem charFromU32_surrogate (n : Nat) (h : 55296 ≤ n ∧ n ≤ 57343) :
    charFromU32 n = none := by
  rw [charFromU32, dif_neg]
  rw [Nat.isValidChar]
  push_neg
  omega

theorem charFromU32_bmp (n : Nat) (h : n < 55296) :
    ∃ ch, charFromU32 n = some ch ∧ ch.toNat = n := by
  have hv : n.isValidChar := Or.inl h
  refine ⟨Char.ofNatAux n hv, ?_, ?_⟩
  · rw [charFromU32, dif_pos hv]
  · simp [Char.ofNatAux, Char.toNat, UInt32.toNat]

theorem sliceForwardLoop_eq (xs : List Value) (upper step : Int)
    (hupper : upper ≤ integerMax) :
    ∀ i, 0 ≤ i →
      sliceForwardLoop xs upper step i
        = (forwardIndices i upper step).filterMap
            (fun k => if 0 ≤ k then xs.get? k.toNat else none) := by
  have H : ∀ n : Nat, ∀ i, 0 ≤ i → (upper - i).toNat ≤ n →
      sliceForwardLoop xs upper step i
        = (forwardIndices i upper step).filterMap
            (fun k => if 0 ≤ k then xs.get? k.toNat else none) := by
    intro n
    induction n with
    | zero =>
      intro i hi hn
      rw [sliceForwardLoop, forwardIndices]
      rw [dif_neg, dif_neg]
      · simp
      · omega
      · omega
    | succ n ih =>
      intro i hi hn
      rw [sliceForwardLoop, forwardIndices]
      by_cases hc : 0 < step ∧ i < upper
      · rw [dif_pos hc, dif_pos hc]
        by_cases hr : checkedAddOk i step
        · rw [if_pos hr]
          rw [ih (i + step) (by omega) (by omega)]
          simp only [List.filterMap_cons]
          cases h0 : (if 0 ≤ i then xs.get? i.toNat else none) with
          | none => simp [h0]
          | some v => simp [h0]
        · rw [if_neg hr]
          have hstop : forwardIndices (i + step) upper step = [] := by
            rw [forwardIndices, dif_neg]
            unfold checkedAddOk at hr
            simp only [integerMax, integerMin, i64Max, i64Min] at hr hupper
            omega
          rw [hstop]
          simp only [List.filterMap_cons, List.filterMap_nil]
          cases h0 : (if 0 ≤ i then xs.get? i.toNat else none) with
          | none => simp [h0]
          | some v => simp [h0]
      · rw [dif_neg hc, dif_neg hc]
        simp
  intro i hi
  exact H (upper - i).toNat i hi (le_refl _)

theorem sliceReverseLoop_eq (xs : List Value) (lower step : Int)
    (hlower : -1 ≤ lower) :
    ∀ i, i ≤ integerMax →
      sliceReverseLoop xs lower step i
        = (reverseIndices i lower step).filterMap
            (fun k => if 0 ≤ k then xs.get? k.toNat else none) := by
  have H : ∀ n : Nat, ∀ i, i ≤ integerMax → (i - lower).toNat ≤ n →
      sliceReverseLoop xs lower step i
        = (reverseIndices i lower step).filterMap
            (fun k => if 0 ≤ k then xs.get? k.toNat else none) := by
    intro n
    induction n with
    | zero =>
      intro i hi hn
      rw [sliceReverseLoop, reverseIndices]
      rw [dif_neg, dif_neg]
      · simp
      · omega
      · omega
    | succ n ih =>
      intro i hi hn
      rw [sliceReverseLoop, reverseIndices]
      by_cases hc : step < 0 ∧ lower < i
      · rw [dif_pos hc, dif_pos hc]
        by_cases hr : checkedAddOk i step
        · rw [if_pos hr]
          rw [ih (i + step) (by omega) (by omega)]
          simp only [List.filterMap_cons]
          cases h0 : (if 0 ≤ i then xs.get? i.toNat else none) with
          | none => simp [h0]
          | some v => simp [h0]
        · rw [if_neg hr]
          have hstop : reverseIndices (i + step) lower step = [] := by
            rw [reverseIndices, dif_neg]
            unfold checkedAddOk at hr
            simp only [integerMax, integerMin, i64Max, i64Min] at hr hi hlower ⊢
            omega
          rw [hstop]
          simp only [List.filterMap_cons, List.filterMap_nil]
          cases h0 : (if 0 ≤ i then xs.get? i.toNat else none) with
          | none => simp [h0]
          | some v => simp [h0]
      · rw [dif_neg hc, dif_neg hc]
        simp
  intro i hi
  exact H (i - lower).toNat i hi (le_refl _)

theorem normalize_slice_index_eq (index len : Int)
    (hidx : integerMin ≤ index ∧ index ≤ integerMax)
    (hlen : 0 ≤ len ∧ len ≤ integerMax) :
    normalize_slice_index index len = some (normalizeIdx index len) := by
  unfold normalize_slice_index normalizeIdx Integer.checkedSub
  by_cases h : 0 ≤ index
  · rw [if_pos h, if_pos h]
  · rw [if_neg h, if_neg h, if_pos]
    · congr 1
      omega
    · unfold checkedSubOk
      simp only [integerMin, integerMax, i64Min, i64Max] at *
      omega

theorem bounds_on_forward_slice_eq (s : Slice) (len : Int)
    (hstart : ∀ x, s.start = some x → integerMin ≤ x ∧ x ≤ integerMax)
    (hend : ∀ x, s.end_ = some x → integerMin ≤ x ∧ x ≤ integerMax)
    (hlen : 0 ≤ len ∧ len ≤ integerMax) :
    bounds_on_forward_slice s len = claimForwardBounds s.start s.end_ len := by
  have h1 : integerMin ≤ s.start.getD 0 ∧ s.start.getD 0 ≤ integerMax := by
    cases hs : s.start with
    | some x => exact hstart x hs
    | none =>
      simp only [Option.getD_some, Option.getD_none, integerMin, integerMax]
      omega
  have h2 : integerMin ≤ s.end_.getD len ∧ s.end_.getD len ≤ integerMax := by
    cases hs : s.end_ with
    | some x => exact hend x hs
    | none =>
      simp only [Option.getD_some, Option.getD_none]
      refine ⟨?_, hlen.2⟩
      simp only [integerMin] at *
      omega
  unfold bounds_on_forward_slice claimForwardBounds
  simp only [normalize_slice_index_eq (s.start.getD 0) len h1 hlen,
    normalize_slice_index_eq (s.end_.getD len) len h2 hlen, Option.getD_some]

theorem bounds_on_reverse_slice_eq (s : Slice) (len : Int)
    (hstart : ∀ x, s.start = some x → integerMin ≤ x ∧ x ≤ integerMax)
    (hend : ∀ x, s.end_ = some x → integerMin ≤ x ∧ x ≤ integerMax)
    (hlen : 0 ≤ len ∧ len + 1 ≤ integerMax) :
    bounds_on_reverse_slice s len = some (claimReverseBounds s.start s.end_ len) := by
  have hlen' : 0 ≤ len ∧ len ≤ integerMax := ⟨hlen.1, by omega⟩
  have hsub1 : Integer.checkedSub len 1 = some (len - 1) := by
    rw [Integer.checkedSub, if_pos]
    unfold checkedSubOk
    simp only [integerMin, integerMax, i64Min, i64Max] at *
    omega
  have hmul : Integer.checkedMul len (-1) = some (-len) := by
    rw [Integer.checkedMul, if_pos]
    · congr 1
      omega
    · unfold checkedMulOk
      simp only [integerMin, integerMax, i64Min, i64Max] at *
      refine ⟨by omega, by omega, by omega, by omega⟩
  have hsub2 : Integer.checkedSub (-len) 1 = some (-len - 1) := by
    rw [Integer.checkedSub, if_pos]
    unfold checkedSubOk
    simp only [integerMin, integerMax, i64Min, i64Max] at *
    omega
  have hstartr : integerMin ≤ s.start.getD (len - 1) ∧ s.start.getD (len - 1) ≤ integerMax := by
    cases hs : s.start with
    | some x => exact hstart x hs
    | none =>
      simp only [Option.getD_some, Option.getD_none]
      simp only [integerMin, integerMax] at *
      omega
  have hendr : integerMin ≤ s.end_.getD (-len - 1) ∧ s.end_.getD (-len - 1) ≤ integerMax := by
    cases hs : s.end_ with
    | some x => exact hend x hs
    | none =>
      simp only [Option.getD_some, Option.getD_none]
      simp only [integerMin, integerMax] at *
      omega
  unfold bounds_on_reverse_slice claimReverseBounds
  cases hs : s.start with
  | some sx =>
    cases he : s.end_ with
    | some ex =>
      rw [hs] at hstartr
      rw [he] at hendr
      simp only [Option.getD_some] at hstartr hendr
      simp only [Option.bind_eq_bind, Option.some_bind,
        normalize_slice_index_eq sx len hstartr hlen',
        normalize_slice_index_eq ex len hendr hlen', hsub1, Option.getD_some]
    | none =>
      rw [hs] at hstartr
      rw [he] at hendr
      simp only [Option.getD_some, Option.getD_none] at hstartr hendr
      simp only [Option.bind_eq_bind, Option.some_bind, hmul, hsub2, Option.bind_some,
        normalize_slice_index_eq sx len hstartr hlen',
        normalize_slice_index_eq (-len - 1) len hendr hlen', hsub1,
        Option.getD_some, Option.getD_none]
  | none =>
    cases he : s.end_ with
    | some ex =>
      rw [hs] at hstartr
      rw [he] at hendr
      simp only [Option.getD_some, Option.getD_none] at hstartr hendr
      simp only [Option.bind_eq_bind, hsub1, Option.some_bind,
        normalize_slice_index_eq (len - 1) len hstartr hlen',
        normalize_slice_index_eq ex len hendr hlen',
        Option.getD_some, Option.getD_none]
    | none =>
      rw [hs] at hstartr
      rw [he] at hendr
      simp only [Option.getD_some, Option.getD_none] at hstartr hendr
      simp only [Option.bind_eq_bind, hsub1, Option.some_bind, hmul, hsub2, Option.bind_some,
        normalize_slice_index_eq (len - 1) len hstartr hlen',
        normalize_slice_index_eq (-len - 1) len hendr hlen',
        Option.getD_some, Option.getD_none]

theorem nameQuery_length_le_one (n : String) (v : Value) : (nameQuery n v).length ≤ 1 := by
  unfold nameQuery
  cases v.asObject.bind (fun o => objectGet o n) <;> simp

theorem indexQuery_length_le_one (i : Int) (v : Value) : (indexQuery i v).length ≤ 1 := by
  unfold indexQuery
  split
  · split <;> simp
  · simp

theorem selectorEval_singular (s : Selector) (hs : s.is_singular = true) (v root : Value) :
    ∃ r, selectorEval s v root = some r ∧ r.length ≤ 1 := by
  cases s with
  | name n =>
    refine ⟨nameQuery n v, ?_, nameQuery_length_le_one n v⟩
    rw [selectorEval]
  | index i =>
    refine ⟨indexQuery i v, ?_, indexQuery_length_le_one i v⟩
    rw [selectorEval]
  | wildcard => simp [Selector.is_singular] at hs
  | arraySlice sl => simp [Selector.is_singular] at hs
  | filter f => simp [Selector.is_singular] at hs

theorem segmentEval_singular (seg : Segment) (hseg : seg.is_singular = true) (v root : Value) :
    ∃ r, segmentEval seg v root = some r ∧ r.length ≤ 1 := by
  cases seg with
  | longHand selectors =>
    cases selectors with
    | nil =>
      refine ⟨[], ?_, by simp⟩
      rw [segmentEval, selListEval]
    | cons s rest =>
      cases rest with
      | nil =>
        have hs : s.is_singular = true := by
          simp [Segment.is_singular] at hseg
          exact hseg
        obtain ⟨r, hr, hlen⟩ := selectorEval_singular s hs v root
        refine ⟨r ++ [], ?_, by simpa using hlen⟩
        rw [segmentEval, selListEval, hr, selListEval]
        rfl
      | cons s2 rest2 =>
        exfalso
        simp [Segment.is_singular] at hseg
  | dotName key =>
    refine ⟨_, by rw [segmentEval], ?_⟩
    cases h : v.asObject with
    | none => simp [h]
    | some o =>
      cases h2 : objectGet o key with
      | none => simp [h, h2]
      | some w => simp [h, h2]
  | wildcard => simp [Segment.is_singular] at hseg

theorem querySegmentEval_singular (s : QuerySegment) (hchild : s.is_descendent = false)
    (hseg : s.segment.is_singular = true) (v root : Value) :
    ∃ r, querySegmentEval s v root = some r ∧ r.length ≤ 1 := by
  obtain ⟨r, hr, hlen⟩ := segmentEval_singular s.segment hseg v root
  have hk : s.kind = .child := by
    cases hsk : s.kind with
    | child => rfl
    | descendant =>
      exfalso
      unfold QuerySegment.is_descendent QuerySegment.is_child at hchild
      rw [hsk] at hchild
      simp at hchild
  refine ⟨r, ?_, hlen⟩
  rw [querySegmentEval, hr, hk]
  rfl

theorem segNodesEval_singular (s : QuerySegment) (hchild : s.is_descendent = false)
    (hseg : s.segment.is_singular = true) (root : Value) :
    ∀ nodes : List Value, nodes.length ≤ 1 →
      ∃ r, segNodesEval s nodes root = some r ∧ r.length ≤ 1 := by
  intro nodes hn
  cases nodes with
  | nil =>
    refine ⟨[], ?_, by simp⟩
    rw [segNodesEval]
  | cons v vs =>
    cases vs with
    | nil =>
      obtain ⟨r, hr, hlen⟩ := querySegmentEval_singular s hchild hseg v root
      refine ⟨r ++ [], ?_, by simpa using hlen⟩
      rw [segNodesEval, hr, segNodesEval]
      rfl
    | cons v2 vs2 => simp at hn

theorem segListEval_singular (root : Value) :
    ∀ segs : List QuerySegment,
      (∀ s ∈ segs, s.is_descendent = false ∧ s.segment.is_singular = true) →
      ∀ nodes : List Value, nodes.length ≤ 1 →
        ∃ r, segListEval segs nodes root = some r ∧ r.length ≤ 1 := by
  intro segs
  induction segs with
  | nil =>
    intro _ nodes hn
    refine ⟨nodes, ?_, hn⟩
    rw [segListEval]
  | cons s rest ih =>
    intro hall nodes hn
    obtain ⟨r1, hr1, hlen1⟩ :=
      segNodesEval_singular s (hall s (by simp)).1 (hall s (by simp)).2 root nodes hn
    obtain ⟨r2, hr2, hlen2⟩ := ih (fun s' hs' => hall s' (by simp [hs'])) r1 hlen1
    refine ⟨r2, ?_, hlen2⟩
    rw [segListEval, hr1]
    exact hr2

/-! ## Claim theorems: C10, C2, C9 -/

/-- C10: `BuiltinFunctionRegistry::get` lowercases the requested name before
matching, so registry lookup is case-insensitive; in particular "LENGTH" and
"length" resolve to the same built-in function. -/
theorem registry_lookup_case_insensitive :
    (∀ (regexFeature : Bool) (name : List Char),
      builtinRegistryGet regexFeature name
        = builtinRegistryGet regexFeature (toLowercase name))
    ∧ builtinRegistryGet false "LENGTH".data = some .length
    ∧ builtinRegistryGet false "length".data = some .length := by
  refine ⟨fun rf name => ?_, by decide, by decide⟩
  unfold builtinRegistryGet
  rw [toLowercase_idem]

/-- C2: the token-integer parser `parse_integer` accepts the out-of-RFC-7493
integer 9007199254740993 = 2^53 + 1 (it only checks the `i64` range), even
though `Integer::try_new` — which the parser never invokes — classifies the
same value as out of bounds.  Per the claim, parsing `$[9007199254740993]`
should be a parse-time error; it is not. -/
theorem parse_integer_accepts_unsafe_integer :
    parse_integer "9007199254740993".data = .ok 9007199254740993
    ∧ integerMax < 9007199254740993
    ∧ Integer.try_new 9007199254740993 = .error .outOfBounds := by
  refine ⟨rfl, by decide, rfl⟩

/-- C9 counterexample: the TOML backend's `is_less_than` applied to the two
integer values 1 and 2 returns false, though 1 < 2 numerically — two
`Integer`s fall through the match to the catch-all arm, contradicting the
claim that for two integer values it returns the integer order. -/
theorem toml_integer_order_counterexample :
    tomlIsLessThan (.integer 1) (.integer 2) = false ∧ (1 : Int) < 2 := by
  exact ⟨rfl, by decide⟩

/-- C9 amended: the TOML backend's `is_less_than` compares an integer with
a float (in either order) via the exact numeric-comparison primitive and
strings lexicographically, and returns false for every other pair —
including two integers and two floats; the JSON backend compares numbers
as i128 when both sides convert (exact integer order), falling back to f64
otherwise. -/
theorem toml_json_less_than_semantics :
    (∀ l r : Int, tomlIsLessThan (.integer l) (.integer r) = false)
    ∧ (∀ l r : ℚ, tomlIsLessThan (.float l) (.float r) = false)
    ∧ (∀ (l : Int) (r : ℚ), tomlIsLessThan (.integer l) (.float r) = decide ((l : ℚ) < r))
    ∧ (∀ (l : ℚ) (r : Int), tomlIsLessThan (.float l) (.integer r) = decide (l < (r : ℚ)))
    ∧ (∀ l r : String, tomlIsLessThan (.string l) (.string r) = decide (l < r))
    ∧ (∀ l r : Bool, tomlIsLessThan (.boolean l) (.boolean r) = false)
    ∧ (∀ m n : Nat, jsonNumberLessThan (.posInt m) (.posInt n) = decide (m < n))
    ∧ (∀ (m : Nat) (n : Int), jsonNumberLessThan (.posInt m) (.negInt n) = decide ((m : Int) < n))
    ∧ (∀ (m : Int) (n : Nat), jsonNumberLessThan (.negInt m) (.posInt n) = decide (m < (n : Int)))
    ∧ (∀ m n : Int, jsonNumberLessThan (.negInt m) (.negInt n) = decide (m < n))
    ∧ (∀ (m : ℚ) (n : Nat), jsonNumberLessThan (.float m) (.posInt n) = decide (m < (n : ℚ)))
    ∧ (∀ m n : ℚ, jsonNumberLessThan (.float m) (.float n) = decide (m < n)) := by
  refine ⟨fun _ _ => rfl, fun _ _ => rfl, fun _ _ => rfl, fun _ _ => rfl, fun _ _ => rfl,
    fun _ _ => rfl, fun m n => ?_, fun m n => rfl, fun m n => rfl, fun m n => ?_,
    fun m n => rfl, fun m n => rfl⟩
  · simp [jsonNumberLessThan, JsonNumber.as_i128]
  · simp [jsonNumberLessThan, JsonNumber.as_i128]

/-! ## Claim theorems: C3 -/

/-- C3 counterexample: the object `{"'" : null}` queried with the name
selector yields the located node at path `[Name "'"]`, and that path's
`Display` is `$[''']` — the apostrophe in the name is *not* escaped
(`NormalizedPath`'s `Display` interpolates the raw name string), though the
claim requires `$['\'']`; `PathElement`'s own `Display`, which
`NormalizedPath` bypasses, would have escaped it. -/
theorem normalized_path_display_counterexample :
    nameQueryLocated (String.mk [apo]) (Value.object [(String.mk [apo], Value.null)]) []
      = [([PathElement.name [apo]], Value.null)]
    ∧ displayNormalizedPath [PathElement.name [apo]] = ['$', '[', apo, apo, apo, ']']
    ∧ displayPathElement (PathElement.name [apo]) = [bsl, apo] := by
  refine ⟨?_, ?_, ?_⟩
  · simp [nameQueryLocated, Value.asObject, objectGetKeyValue]
  · simp [displayNormalizedPath]
  · simp [displayPathElement, escapePathChar, apo]

/-- C3 amended: `NormalizedPath`'s `Display` writes `$` followed by one
bracketed element per step, an index as `[n]` and a name as `['…']` with
the name interpolated raw (no escaping); the escaping lives only in
`PathElement`'s own `Display`, which maps backspace, form feed, line feed,
carriage return, tab and apostrophe to `\b \f \n \r \t \'`, writes a
backslash back as a single (unescaped) backslash, writes the controls
U+0000-U+0007, U+000B, U+000E, U+000F as `\u000X`, and every other
character — including the controls U+0010-U+001F — literally. -/
theorem normalized_path_display_semantics :
    (∀ s : List Char, displayNormalizedPath [.name s]
      = ['$', '[', apo] ++ s ++ [apo, ']'])
    ∧ (∀ n : Nat, displayNormalizedPath [.index n]
      = ['$', '['] ++ (Nat.repr n).data ++ [']'])
    ∧ (∀ s : List Char, displayPathElement (.name s) = (s.map escapePathChar).flatten)
    ∧ escapePathChar (Char.ofNat 8) = [bsl, 'b']
    ∧ escapePathChar (Char.ofNat 12) = [bsl, 'f']
    ∧ escapePathChar (Char.ofNat 10) = [bsl, 'n']
    ∧ escapePathChar (Char.ofNat 13) = [bsl, 'r']
    ∧ escapePathChar (Char.ofNat 9) = [bsl, 't']
    ∧ escapePathChar apo = [bsl, apo]
    ∧ escapePathChar bsl = [bsl]
    ∧ (∀ c : Char, c.toNat ≤ 7 ∨ c.toNat = 11 ∨ c.toNat = 14 ∨ c.toNat = 15 →
        escapePathChar c = [bsl, 'u', '0', '0', '0', hexDigitChar c.toNat])
    ∧ (∀ c : Char, 16 ≤ c.toNat → c ≠ apo → c ≠ bsl → escapePathChar c = [c]) := by
  refine ⟨?_, ?_, fun s => rfl, by decide, by decide, by decide, by decide, by decide,
    by decide, by decide, ?_, ?_⟩
  · intro s
    simp [displayNormalizedPath]
  · intro n
    simp [displayNormalizedPath]
  · intro c hc
    have h8 : c ≠ Char.ofNat 8 := by
      intro h
      rw [h] at hc
      revert hc
      decide
    have h12 : c ≠ Char.ofNat 12 := by
      intro h
      rw [h] at hc
      revert hc
      decide
    have h10 : c ≠ Char.ofNat 10 := by
      intro h
      rw [h] at hc
      revert hc
      decide
    have h13 : c ≠ Char.ofNat 13 := by
      intro h
      rw [h] at hc
      revert hc
      decide
    have h9 : c ≠ Char.ofNat 9 := by
      intro h
      rw [h] at hc
      revert hc
      decide
    have hap : c ≠ apo := by
      intro h
      rw [h] at hc
      revert hc
      decide
    have hbs : c ≠ bsl := by
      intro h
      rw [h] at hc
      revert hc
      decide
    rw [escapePathChar, if_neg h8, if_neg h12, if_neg h10, if_neg h13, if_neg h9,
      if_neg hap, if_neg hbs, if_pos hc]
  · intro c hc hap hbs
    have h8 : c ≠ Char.ofNat 8 := by
      intro h
      rw [h] at hc
      revert hc
      decide
    have h12 : c ≠ Char.ofNat 12 := by
      intro h
      rw [h] at hc
      revert hc
      decide
    have h10 : c ≠ Char.ofNat 10 := by
      intro h
      rw [h] at hc
      revert hc
      decide
    have h13 : c ≠ Char.ofNat 13 := by
      intro h
      rw [h] at hc
      revert hc
      decide
    have h9 : c ≠ Char.ofNat 9 := by
      intro h
      rw [h] at hc
      revert hc
      decide
    have hctl : ¬(c.toNat ≤ 7 ∨ c.toNat = 11 ∨ c.toNat = 14 ∨ c.toNat = 15) := by
      omega
    rw [escapePathChar, if_neg h8, if_neg h12, if_neg h10, if_neg h13, if_neg h9,
      if_neg hap, if_neg hbs, if_neg hctl]

/-- C3 amended-claim witness: the theorem applied at the control character
U+0010, which is written literally, and at U+000B, which is escaped. -/
theorem normalized_path_display_semantics_witness :
    escapePathChar (Char.ofNat 16) = [Char.ofNat 16]
    ∧ escapePathChar (Char.ofNat 11) = [bsl, 'u', '0', '0', '0', hexDigitChar 11] := by
  constructor
  · exact (normalized_path_display_semantics.2.2.2.2.2.2.2.2.2.2.2) (Char.ofNat 16)
      (by decide) (by decide) (by decide)
  · exact (normalized_path_display_semantics.2.2.2.2.2.2.2.2.2.2.1) (Char.ofNat 11)
      (by decide)

/-! ## Claim theorems: C7 -/

/-- C7 counterexample: unescaping the string literal `'a\/b'` is a parse
error "invalid escape sequence" — `\/` is *not* an accepted escape, though
the claim lists it among the supported sequences (which per the claim map
to their character, here `/`). -/
theorem parse_string_solidus_counterexample :
    parse_string [apo, 'a', bsl, '/', 'b', apo] = .err "invalid escape sequence" := by
  simp [parse_string, parseStringBody, bsl, apo, octDigitVal, consResult]

/-- C7 amended: for a string literal with quote character `q` (`'` or `"`),
unescaping maps `\b \f \n \r \t \\` to their characters and `\q` — the
escaped *enclosing* quote only — to the quote; the other quote character
after a backslash, `\/`, and every other non-hex, non-octal backslash
sequence are "invalid escape sequence" errors; `\uXXXX` reads the next up
to four characters as hex digits and maps the code through
`char::from_u32`, so any UTF-16 surrogate (paired or not) is rejected and
every BMP non-surrogate code maps to its character; `\xHH` reads two hex
digits; octal escapes are supported (e.g. `\101` is `A`); a literal whose
last character is not the opening quote is a "mismatched quote" error, and
an unescaped quote inside the body is an "intermediately close quote"
error. -/
theorem parse_string_unescaping_semantics (q : Char)
    (hq : q = apo ∨ q = Char.ofNat 34) :
    (∀ rest, parseStringBody (bsl :: 'b' :: rest) q
      = consResult (Char.ofNat 8) (parseStringBody rest q))
    ∧ (∀ rest, parseStringBody (bsl :: 'f' :: rest) q
      = consResult (Char.ofNat 12) (parseStringBody rest q))
    ∧ (∀ rest, parseStringBody (bsl :: 'n' :: rest) q
      = consResult (Char.ofNat 10) (parseStringBody rest q))
    ∧ (∀ rest, parseStringBody (bsl :: 'r' :: rest) q
      = consResult (Char.ofNat 13) (parseStringBody rest q))
    ∧ (∀ rest, parseStringBody (bsl :: 't' :: rest) q
      = consResult (Char.ofNat 9) (parseStringBody rest q))
    ∧ (∀ rest, parseStringBody (bsl :: bsl :: rest) q
      = consResult bsl (parseStringBody rest q))
    ∧ (∀ rest, parseStringBody (bsl :: q :: rest) q
      = consResult q (parseStringBody rest q))
    ∧ (∀ p rest, (p = apo ∨ p = Char.ofNat 34) → p ≠ q →
        parseStringBody (bsl :: p :: rest) q = .err "invalid escape sequence")
    ∧ (∀ rest, parseStringBody (bsl :: '/' :: rest) q = .err "invalid escape sequence")
    ∧ (∀ rest, parseStringBody (bsl :: 'u' :: rest) q
      = match unescapeHexVal (rest.take 4) with
        | some ch => consResult ch (parseStringBody (rest.drop 4) q)
        | none => .err "invalid escape sequence")
    ∧ (∀ rest, parseStringBody (bsl :: 'x' :: rest) q
      = match unescapeHexVal (rest.take 2) with
        | some ch => consResult ch (parseStringBody (rest.drop 2) q)
        | none => .err "invalid escape sequence")
    ∧ (∀ n : Nat, 55296 ≤ n ∧ n ≤ 57343 → charFromU32 n = none)
    ∧ (∀ n : Nat, n < 55296 → ∃ ch, charFromU32 n = some ch ∧ ch.toNat = n)
    ∧ parseStringBody [bsl, '1', '0', '1'] q = .ok ['A']
    ∧ (∀ rest, parseStringBody (q :: rest) q = .err "intermediately close quote")
    ∧ (∀ c rest, c ≠ bsl → c ≠ q →
        parseStringBody (c :: rest) q = consResult c (parseStringBody rest q))
    ∧ (∀ e rest, e ≠ 'b' → e ≠ 'f' → e ≠ 'n' → e ≠ 'r' → e ≠ 't' → e ≠ bsl →
        e ≠ 'u' → e ≠ 'x' → (octDigitVal e).isNone → e ≠ q →
        parseStringBody (bsl :: e :: rest) q = .err "invalid escape sequence")
    ∧ parse_string [q] = .err "mismatched quote"
    ∧ (∀ cs c, cs.getLast? = some c → c ≠ q →
        parse_string (q :: cs) = .err "mismatched quote") := by
  have hqb : q ≠ bsl := by
    rcases hq with h | h
    · rw [h]
      decide
    · rw [h]
      decide
  have hqesc : q ≠ 'b' ∧ q ≠ 'f' ∧ q ≠ 'n' ∧ q ≠ 'r' ∧ q ≠ 't' ∧ q ≠ 'u' ∧ q ≠ 'x'
      ∧ (octDigitVal q).isNone := by
    rcases hq with h | h
    · rw [h]
      refine ⟨by decide, by decide, by decide, by decide, by decide, by decide,
        by decide, by decide⟩
    · rw [h]
      refine ⟨by decide, by decide, by decide, by decide, by decide, by decide,
        by decide, by decide⟩
  refine ⟨?_, ?_, ?_, ?_, ?_, ?_, ?_, ?_, ?_, ?_, ?_,
    charFromU32_surrogate, charFromU32_bmp, ?_, ?_, ?_, ?_, ?_, ?_⟩
  · intro rest
    rw [parseStringBody]
    simp
  · intro rest
    rw [parseStringBody]
    simp
  · intro rest
    rw [parseStringBody]
    simp
  · intro rest
    rw [parseStringBody]
    simp
  · intro rest
    rw [parseStringBody]
    simp
  · intro rest
    rw [parseStringBody]
    simp [bsl]
  · intro rest
    rw [parseStringBody]
    obtain ⟨h1, h2, h3, h4, h5, h6, h7, h8⟩ := hqesc
    simp [h1, h2, h3, h4, h5, h6, h7, Option.isNone_iff_eq_none.mp h8, hqb]
  · intro p rest hp hpq
    have hpb : p ≠ bsl := by
      rcases hp with h | h
      · rw [h]
        decide
      · rw [h]
        decide
    have hpesc : p ≠ 'b' ∧ p ≠ 'f' ∧ p ≠ 'n' ∧ p ≠ 'r' ∧ p ≠ 't' ∧ p ≠ 'u' ∧ p ≠ 'x'
        ∧ (octDigitVal p).isNone := by
      rcases hp with h | h
      · rw [h]
        refine ⟨by decide, by decide, by decide, by decide, by decide, by decide,
          by decide, by decide⟩
      · rw [h]
        refine ⟨by decide, by decide, by decide, by decide, by decide, by decide,
          by decide, by decide⟩
    obtain ⟨h1, h2, h3, h4, h5, h6, h7, h8⟩ := hpesc
    rw [parseStringBody]
    simp [h1, h2, h3, h4, h5, h6, h7, Option.isNone_iff_eq_none.mp h8, hpb, hpq]
  · intro rest
    have hsq : ('/' : Char) ≠ q := by
      rcases hq with h | h
      · rw [h]
        decide
      · rw [h]
        decide
    rw [parseStringBody]
    simp [bsl, octDigitVal, hsq]
  · intro rest
    rw [parseStringBody]
    simp [bsl]
  · intro rest
    rw [parseStringBody]
    simp [bsl]
  · rw [parseStringBody]
    simp [bsl, octDigitVal, octalVal, charFromU32, Nat.isValidChar, consResult, parseStringBody]
  · intro rest
    rw [parseStringBody.eq_def]
    simp [hqb]
  · intro c rest hcb hcq
    rw [parseStringBody.eq_def]
    simp [hcb, hcq]
  · intro e rest h1 h2 h3 h4 h5 h6 h7 h8 h9 h10
    rw [parseStringBody]
    simp [h1, h2, h3, h4, h5, h6, h7, h8, Option.isNone_iff_eq_none.mp h9, h10]
  · simp [parse_string]
  · intro cs c hlast hcq
    rw [parse_string]
    simp [hlast, hcq]

/-- C7 amended-claim witness: the theorem applied at the single-quote
character, extracting the `\/`-rejection fact on a concrete literal body. -/
theorem parse_string_unescaping_semantics_witness :
    parseStringBody [bsl, '/'] apo = .err "invalid escape sequence"
    ∧ parseStringBody [bsl, 'b'] apo
      = consResult (Char.ofNat 8) (parseStringBody [] apo) := by
  constructor
  · exact (parse_string_unescaping_semantics apo (Or.inl rfl)).2.2.2.2.2.2.2.2.1 []
  · exact (parse_string_unescaping_semantics apo (Or.inl rfl)).1 []

/-! ## Claim theorems: C5 -/

/-- C5: for every array and every slice selector whose present fields are
RFC 7493 integers and whose length is below the safe-integer bound, the
slice selector selects, for `step > 0`, the elements at indices
`i = lower, lower+step, …` while `i < upper`, and for `step < 0` those at
`i = upper, upper+step, …` while `i > lower`, where `lower`/`upper` come
from normalizing negative start/end against the length and clamping to the
valid range (`[0, len]` forward, `[-1, len-1]` reverse, with the RFC
default start/end per sign of step); `step == 0` yields the empty list, and
applying a slice to a non-array yields the empty list. -/
theorem slice_selector_semantics (s : Slice) (xs : List Value)
    (hstart : ∀ x, s.start = some x → integerMin ≤ x ∧ x ≤ integerMax)
    (hend : ∀ x, s.end_ = some x → integerMin ≤ x ∧ x ≤ integerMax)
    (hlen : (xs.length : Int) + 1 ≤ integerMax) :
    (s.step = some 0 → sliceQuery s (Value.array xs) = [])
    ∧ (∀ w : Value, w.asArray = none → sliceQuery s w = [])
    ∧ (∀ step, s.step = some step → 0 < step →
        sliceQuery s (Value.array xs)
          = (forwardIndices (claimForwardBounds s.start s.end_ (xs.length : Int)).1
              (claimForwardBounds s.start s.end_ (xs.length : Int)).2 step).filterMap
              (fun k => if 0 ≤ k then xs.get? k.toNat else none))
    ∧ (∀ step, s.step = some step → step < 0 →
        sliceQuery s (Value.array xs)
          = (reverseIndices (claimReverseBounds s.start s.end_ (xs.length : Int)).2
              (claimReverseBounds s.start s.end_ (xs.length : Int)).1 step).filterMap
              (fun k => if 0 ≤ k then xs.get? k.toNat else none)) := by
  have hlen' : (0 : Int) ≤ (xs.length : Int) ∧ (xs.length : Int) ≤ integerMax := by
    constructor
    · omega
    · omega
  have htry : integerTryFromNat xs.length = some (xs.length : Int) := by
    rw [integerTryFromNat, if_pos hlen'.2]
  refine ⟨?_, ?_, ?_, ?_⟩
  · intro hstep
    rw [sliceQuery]
    simp [Value.asArray, hstep]
  · intro w hw
    rw [sliceQuery, hw]
  · intro step hstep h0
    rw [sliceQuery]
    simp only [Value.asArray, hstep, Option.getD_some, htry]
    rw [if_neg (by omega), if_pos h0]
    rw [bounds_on_forward_slice_eq s (xs.length : Int) hstart hend hlen']
    have h0l : 0 ≤ (claimForwardBounds s.start s.end_ (xs.length : Int)).1 := by
      rw [claimForwardBounds]
      exact le_min (le_max_right _ _) (by omega)
    have hup : (claimForwardBounds s.start s.end_ (xs.length : Int)).2 ≤ integerMax := by
      rw [claimForwardBounds]
      exact le_trans (min_le_right _ _) hlen'.2
    exact sliceForwardLoop_eq xs _ step hup _ h0l
  · intro step hstep h0
    rw [sliceQuery]
    simp only [Value.asArray, hstep, Option.getD_some, htry]
    rw [if_neg (by omega), if_neg (by omega)]
    rw [bounds_on_reverse_slice_eq s (xs.length : Int) hstart hend ⟨by omega, hlen⟩]
    have hml : -1 ≤ (claimReverseBounds s.start s.end_ (xs.length : Int)).1 := by
      rw [claimReverseBounds]
      exact le_min (le_max_right _ _) (by omega)
    have hup : (claimReverseBounds s.start s.end_ (xs.length : Int)).2 ≤ integerMax := by
      rw [claimReverseBounds]
      refine le_trans (min_le_right _ _) ?_
      omega
    exact sliceReverseLoop_eq xs _ step hml _ hup

/-- C5 witness: the seed scenario S4 — `$[1:5:2]` over the seven-element
array a..g selects exactly b and d, via the theorem's forward conjunct. -/
theorem slice_selector_semantics_witness :
    sliceQuery ⟨some 1, some 5, some 2⟩
        (Value.array [Value.string "a", Value.string "b", Value.string "c",
          Value.string "d", Value.string "e", Value.string "f", Value.string "g"])
      = [Value.string "b", Value.string "d"] := by
  have h := (slice_selector_semantics ⟨some 1, some 5, some 2⟩
    [Value.string "a", Value.string "b", Value.string "c", Value.string "d",
      Value.string "e", Value.string "f", Value.string "g"]
    (fun x hx => by
      cases hx
      constructor
      · decide
      · decide)
    (fun x hx => by
      cases hx
      constructor
      · decide
      · decide)
    (by decide)).2.2.1 2 rfl (by decide)
  rw [h]
  simp [claimForwardBounds, normalizeIdx, forwardIndices]

/-! ## Claim theorems: C1 -/

/-- C1: evaluating the filter comparison of `$.a[?@.b == 'kilo']` on
`{"a": [{"b": "kilo"}]}` — both sides resolve to a comparable (a Node and
a Value) — does *not* run to completion: `check_equal_to` dispatches to
`value_equal_to`, whose body is `todo!("implement value_equal_to")`, so
evaluation panics (modelled as `none`) instead of selecting the matching
element. -/
theorem equality_filter_evaluation_panics :
    queryEval
      (Query.mk .root
        [QuerySegment.mk .child (Segment.dotName "a"),
         QuerySegment.mk .child (Segment.longHand
           [Selector.filter (Filter.mk (LogicalOrExpr.mk [LogicalAndExpr.mk
             [BasicExpr.relation
               ⟨Comparable.singularQuery ⟨.relative, [SingularQuerySegment.name "b"]⟩,
                ComparisonOperator.equalTo,
                Comparable.literal (Literal.string "kilo")⟩]]))])])
      (Value.object [("a", Value.array [Value.object [("b", Value.string "kilo")]])])
      (Value.object [("a", Value.array [Value.object [("b", Value.string "kilo")]])])
      = none := by
  simp [queryEval, segListEval, segNodesEval, querySegmentEval, segmentEval, selListEval,
    selectorEval, filterChildren, logicalOrTest, orListTest, andTest, andListTest, basicTest,
    comparisonTestFilter, comparableAsValue, evalSingularQuery, literalToSPathValue,
    check_equal_to, value_equal_to, Value.asObject, Value.asArray, objectGet,
    QuerySegment.kind, QuerySegment.segment, nameQuery]

/-! ## Claim theorems: C6 -/

/-- C6 counterexample: with both sides of the comparison resolving to
*Nothing* (relative singular queries `@.x`, `@.y` on the empty object),
`==` tests true and `<` tests false, so the claim says `<=` must test
true — but it tests false, because `<=` first requires
`check_same_type`, which is false for *Nothing*. -/
theorem comparison_le_iff_counterexample :
    comparisonTestFilter
        ⟨Comparable.singularQuery ⟨.relative, [SingularQuerySegment.name "x"]⟩,
         ComparisonOperator.lessThanEqualTo,
         Comparable.singularQuery ⟨.relative, [SingularQuerySegment.name "y"]⟩⟩
        (Value.object []) (Value.object []) = some false
    ∧ comparisonTestFilter
        ⟨Comparable.singularQuery ⟨.relative, [SingularQuerySegment.name "x"]⟩,
         ComparisonOperator.equalTo,
         Comparable.singularQuery ⟨.relative, [SingularQuerySegment.name "y"]⟩⟩
        (Value.object []) (Value.object []) = some true
    ∧ comparisonTestFilter
        ⟨Comparable.singularQuery ⟨.relative, [SingularQuerySegment.name "x"]⟩,
         ComparisonOperator.lessThan,
         Comparable.singularQuery ⟨.relative, [SingularQuerySegment.name "y"]⟩⟩
        (Value.object []) (Value.object []) = some false := by
  exact ⟨rfl, rfl, rfl⟩

/-- C6 amended: whenever the comparison tests complete without panicking,
`l < r` tests `check_same_type ∧ check_less_than`; `l >= r` tests
`check_same_type ∧ ¬check_less_than`; and — when the equality check
completes with result `b` — `l <= r` tests
`check_same_type ∧ (check_less_than ∨ b)` and `l > r` tests
`check_same_type ∧ ¬check_less_than ∧ ¬b`; in particular every ordering
comparison between sides of distinct fundamental types (including
*Nothing*) tests false. -/
theorem comparison_operator_semantics (left right : Comparable) (cur root : Value) :
    (comparisonTestFilter ⟨left, .lessThan, right⟩ cur root
      = some (check_same_type (comparableAsValue left cur root)
            (comparableAsValue right cur root)
          && check_less_than (comparableAsValue left cur root)
            (comparableAsValue right cur root)))
    ∧ (comparisonTestFilter ⟨left, .greaterThanEqualTo, right⟩ cur root
      = some (check_same_type (comparableAsValue left cur root)
            (comparableAsValue right cur root)
          && !check_less_than (comparableAsValue left cur root)
            (comparableAsValue right cur root)))
    ∧ (∀ b, check_equal_to (comparableAsValue left cur root)
          (comparableAsValue right cur root) = some b →
        comparisonTestFilter ⟨left, .lessThanEqualTo, right⟩ cur root
          = some (check_same_type (comparableAsValue left cur root)
                (comparableAsValue right cur root)
              && (check_less_than (comparableAsValue left cur root)
                  (comparableAsValue right cur root) || b))
        ∧ comparisonTestFilter ⟨left, .greaterThan, right⟩ cur root
          = some (check_same_type (comparableAsValue left cur root)
                (comparableAsValue right cur root)
              && (!check_less_than (comparableAsValue left cur root)
                  (comparableAsValue right cur root) && !b)))
    ∧ (check_same_type (comparableAsValue left cur root)
          (comparableAsValue right cur root) = false →
        comparisonTestFilter ⟨left, .lessThan, right⟩ cur root = some false
        ∧ comparisonTestFilter ⟨left, .lessThanEqualTo, right⟩ cur root = some false
        ∧ comparisonTestFilter ⟨left, .greaterThan, right⟩ cur root = some false
        ∧ comparisonTestFilter ⟨left, .greaterThanEqualTo, right⟩ cur root = some false) := by
  refine ⟨rfl, rfl, ?_, ?_⟩
  · intro b hb
    constructor
    · by_cases hsame : check_same_type (comparableAsValue left cur root)
          (comparableAsValue right cur root)
        <;> by_cases hless : check_less_than (comparableAsValue left cur root)
          (comparableAsValue right cur root)
        <;> simp [comparisonTestFilter, hsame, hless, hb]
    · by_cases hsame : check_same_type (comparableAsValue left cur root)
          (comparableAsValue right cur root)
        <;> by_cases hless : check_less_than (comparableAsValue left cur root)
          (comparableAsValue right cur root)
        <;> simp [comparisonTestFilter, hsame, hless, hb]
  · intro hsame
    refine ⟨?_, ?_, ?_, ?_⟩ <;> simp [comparisonTestFilter, hsame]

/-- C6 amended-claim witness: the theorem applied where the left side is
the literal 1 and the right side resolves to *Nothing* — there the equality
check completes (with false), and `<=` tests false. -/
theorem comparison_operator_semantics_witness :
    comparisonTestFilter
        ⟨Comparable.literal (Literal.number (Number.i64 1)),
         ComparisonOperator.lessThanEqualTo,
         Comparable.singularQuery ⟨.relative, [SingularQuerySegment.name "x"]⟩⟩
        (Value.object []) (Value.object []) = some false := by
  have h := ((comparison_operator_semantics
    (Comparable.literal (Literal.number (Number.i64 1)))
    (Comparable.singularQuery ⟨.relative, [SingularQuerySegment.name "x"]⟩)
    (Value.object []) (Value.object [])).2.2.1 false rfl).1
  rw [h]
  rfl

/-! ## Claim theorems: C8 -/

/-- C8: a syntactically singular query — no descendant segment, every
segment a dot-name or a single name/index selector — evaluates without
panicking and yields at most one node, on every input. -/
theorem singular_query_yields_at_most_one (q : Query) (current root : Value)
    (h : q.is_singular = true) :
    ∃ r, queryEval q current root = some r ∧ r.length ≤ 1 := by
  cases q with
  | mk kind segments =>
    have hall : ∀ s ∈ segments, s.is_descendent = false ∧ s.segment.is_singular = true := by
      intro s hs
      rw [Query.is_singular] at h
      have h2 := List.all_eq_true.mp h s hs
      simp only [Bool.and_eq_true, Bool.not_eq_true'] at h2
      exact h2
    cases kind with
    | root =>
      obtain ⟨r, hr, hl⟩ := segListEval_singular root segments hall [root] (by simp)
      refine ⟨r, ?_, hl⟩
      rw [queryEval.eq_def]
      exact hr
    | current =>
      obtain ⟨r, hr, hl⟩ := segListEval_singular root segments hall [current] (by simp)
      refine ⟨r, ?_, hl⟩
      rw [queryEval.eq_def]
      exact hr

/-- C8 witness: the singular query `$.a[0]` on `{"a": [null]}`, via the
theorem. -/
theorem singular_query_yields_at_most_one_witness :
    (Query.mk .root [QuerySegment.mk .child (Segment.dotName "a"),
        QuerySegment.mk .child (Segment.longHand [Selector.index 0])]).is_singular = true
    ∧ ∃ r,
        queryEval
          (Query.mk .root [QuerySegment.mk .child (Segment.dotName "a"),
            QuerySegment.mk .child (Segment.longHand [Selector.index 0])])
          (Value.object [("a", Value.array [Value.null])])
          (Value.object [("a", Value.array [Value.null])])
          = some r ∧ r.length ≤ 1 := by
  refine ⟨rfl, singular_query_yields_at_most_one _ _ _ rfl⟩

/-! ## Claim theorems: C4 -/

/-- C4: on the array `[{"b": 1}, {"b": 2}]`, the descendant segment of the
compiled engine in src/spath.rs (`EvalSegment::Descendant`) yields the
selector hits in the order `[2, 1]` — it drives the walk with `Vec::pop`,
a LIFO stack, so later array elements are visited *before* earlier ones,
contradicting the claimed pre-order (and the function's own comment,
"nodes of any array are visited in array order").  The recursive engine of
src/spec/segment.rs (`QuerySegment::query` / `descend`) visits the same
input in array order and yields `[1, 2]`. -/
theorem descendant_stack_engine_reverses_order :
    evalSegmentEval (EvalSegment.descendant [EvalSelector.identifier "b"])
        (Value.array [Value.object [("b", Value.number (Number.i64 1))],
          Value.object [("b", Value.number (Number.i64 2))]])
        (Value.array [Value.object [("b", Value.number (Number.i64 1))],
          Value.object [("b", Value.number (Number.i64 2))]])
      = some (make_array [Value.number (Number.i64 2), Value.number (Number.i64 1)])
    ∧ queryEval
        (Query.mk .root
          [QuerySegment.mk .descendant (Segment.longHand [Selector.name "b"])])
        (Value.array [Value.object [("b", Value.number (Number.i64 1))],
          Value.object [("b", Value.number (Number.i64 2))]])
        (Value.array [Value.object [("b", Value.number (Number.i64 1))],
          Value.object [("b", Value.number (Number.i64 2))]])
      = some [Value.number (Number.i64 1), Value.number (Number.i64 2)] := by
  constructor
  · simp [evalSegmentEval, descendantStackLoop, stackChildren, evalSelectorEval,
      make_array, objectGet, Value.asObject, Value.asArray]
  · simp [queryEval, segListEval, segNodesEval, querySegmentEval, segmentEval, selListEval,
      selectorEval, descendList, descendObj, nameQuery, objectGet, Value.asObject,
      Value.asArray, QuerySegment.kind, QuerySegment.segment]

end SPath
